import Mathlib

/-!
Verification of the MicroServer repository (an embeddable HTTP/1.1 +
WebSocket server for MicroPython) against its natural-language
specification.  Each Python function relevant to the claims is shallowly
embedded as an executable Lean definition translated from the source:

  * `src/middleware.py`  — `MiddlewarePipeline.build` / `_wrap`
  * `src/utils.py`       — `unquote`
  * `src/routing.py`     — `Router.add` / `Router.match` and its tries
  * `src/microserver.py` — header parsing in `_handle_request`,
                           `_create_request`, `_send_streaming_body`,
                           `_write_chunk`
  * `src/http.py`        — `Request.json`
  * `src/websocket.py`   — `WebSocket.send` / `receive` / `close`

Python strings are modelled as `List Char` (or `List Nat` for byte
strings); Python dicts holding headers/routes are modelled as
association lists with update-in-place insertion, which preserves the
observable lookup semantics.
-/

namespace MicroSpec

/-! ### Middleware pipeline (src/middleware.py)

A middleware is called as `middleware(request, next_handler)` and must
produce a response; `_wrap` closes a middleware over its continuation,
and `build` starts from the terminal handler and walks the middleware
list in reverse, wrapping as it goes.  Requests and responses are left
abstract (`ρ`, `σ`); the `async` wrappers are elided since the pipeline
composition itself is pure. -/

/-- A handler: `request → response`. -/
def Handler (ρ σ : Type) : Type := ρ → σ

/-- A middleware: `(request, next_handler) → response`, as in
`middleware.__call__(self, request, next_handler)`. -/
def Middleware (ρ σ : Type) : Type := ρ → Handler ρ σ → σ

/-- `MiddlewarePipeline._wrap`: close a middleware over its
continuation. -/
def wrapMW {ρ σ : Type} (middleware : Middleware ρ σ) (next_handler : Handler ρ σ) :
    Handler ρ σ :=
  fun request => middleware request next_handler

/-- `MiddlewarePipeline.build`: `chain = final_handler`, then
`for middleware in reversed(middlewares): chain = _wrap(middleware, chain)`. -/
def buildPipeline {ρ σ : Type} (middlewares : List (Middleware ρ σ))
    (final_handler : Handler ρ σ) : Handler ρ σ :=
  middlewares.reverse.foldl (fun chain middleware => wrapMW middleware chain) final_handler

/-- A tracing middleware used to observe composition order: requests and
responses are event traces; middleware `i` appends `pre i` to the request
trace before calling `next` and `post i` to the response trace after. -/
def traceMW (i : Nat) : Middleware (List (Nat × Bool)) (List (Nat × Bool)) :=
  fun request next_handler => next_handler (request ++ [(i, true)]) ++ [(i, false)]

theorem buildPipeline_nil {ρ σ : Type} (final_handler : Handler ρ σ) :
    buildPipeline [] final_handler = final_handler := rfl

theorem buildPipeline_cons {ρ σ : Type} (m : Middleware ρ σ)
    (ms : List (Middleware ρ σ)) (final_handler : Handler ρ σ) :
    buildPipeline (m :: ms) final_handler =
      wrapMW m (buildPipeline ms final_handler) := by
  unfold buildPipeline
  rw [List.reverse_cons, List.foldl_append]
  rfl

/-- C3: the middleware pipeline composes in call order: `build()` folds the
middleware list right-to-left around the terminal dispatcher, so the
first-added middleware is outermost; with tracing middlewares added in the
order 1, 2 around a terminal dispatcher 0, middleware 1 sees the request
before 2 and sees the response after 2's post-logic has wrapped it. -/
theorem middleware_pipeline_call_order :
    (∀ (ρ σ : Type) (m : Middleware ρ σ) (ms : List (Middleware ρ σ))
        (final_handler : Handler ρ σ),
      buildPipeline (m :: ms) final_handler =
        wrapMW m (buildPipeline ms final_handler)) ∧
    buildPipeline [traceMW 1, traceMW 2] (fun r => r ++ [(0, true)]) [] =
      [(1, true), (2, true), (0, true), (2, false), (1, false)] := by
  refine ⟨fun ρ σ m ms final_handler => buildPipeline_cons m ms final_handler, rfl⟩

/-! ### Python string and integer primitives

Python strings are modelled as `List Char`.  `int(s, base)` strips
whitespace, allows one optional sign, and then requires a nonempty
digit run in which underscores may appear only between digits.
The whitespace set covers the ASCII/Latin-1 characters Python strips;
other Unicode space characters cannot appear in the inputs the claims
are about. -/

/-- Characters stripped by Python `str.strip()` / accepted around `int()`
literals (ASCII/Latin-1 portion). -/
def isPySpace (c : Char) : Bool :=
  c.toNat == 9 || c.toNat == 10 || c.toNat == 11 || c.toNat == 12 || c.toNat == 13 ||
  c.toNat == 28 || c.toNat == 29 || c.toNat == 30 || c.toNat == 31 || c.toNat == 32 ||
  c.toNat == 133 || c.toNat == 160

/-- Python `str.strip()`: drop whitespace from both ends. -/
def pyStrip (l : List Char) : List Char :=
  ((l.dropWhile isPySpace).reverse.dropWhile isPySpace).reverse

/-- Hexadecimal digit value (`0-9`, `a-f`, `A-F`). -/
def hexVal (c : Char) : Option Nat :=
  if 48 ≤ c.toNat ∧ c.toNat ≤ 57 then some (c.toNat - 48)
  else if 97 ≤ c.toNat ∧ c.toNat ≤ 102 then some (c.toNat - 87)
  else if 65 ≤ c.toNat ∧ c.toNat ≤ 70 then some (c.toNat - 55)
  else none

/-- Decimal digit value. -/
def decVal (c : Char) : Option Nat :=
  if 48 ≤ c.toNat ∧ c.toNat ≤ 57 then some (c.toNat - 48) else none

/-- Digit run after the first digit: underscores are legal only when
followed by another digit (Python's numeric-literal underscore rule). -/
def pyDigitsGo (digVal : Char → Option Nat) (b : Nat) : Nat → List Char → Option Nat
  | acc, [] => some acc
  | acc, c :: rest =>
    if c = '_' then
      match rest with
      | c2 :: rest2 =>
        match digVal c2 with
        | some v => pyDigitsGo digVal b (b * acc + v) rest2
        | none => none
      | [] => none
    else
      match digVal c with
      | some v => pyDigitsGo digVal b (b * acc + v) rest
      | none => none

/-- A Python digit run: nonempty, starting with a digit. -/
def pyDigits (digVal : Char → Option Nat) (b : Nat) : List Char → Option Nat
  | [] => none
  | c :: rest =>
    match digVal c with
    | some v => pyDigitsGo digVal b v rest
    | none => none

/-- Python `int(s, b)`: strip whitespace, one optional sign, digit run;
`none` models the `ValueError` raise. -/
def pyIntOfChars (digVal : Char → Option Nat) (b : Nat) (l : List Char) : Option Int :=
  match pyStrip l with
  | [] => none
  | c :: rest =>
    if c = '+' then (pyDigits digVal b rest).map Int.ofNat
    else if c = '-' then (pyDigits digVal b rest).map (fun n => -(Int.ofNat n))
    else (pyDigits digVal b (c :: rest)).map Int.ofNat

/-- Python `int(s, 16)`. -/
def pyIntHex (l : List Char) : Option Int := pyIntOfChars hexVal 16 l

/-- Python `int(s)` (base 10). -/
def pyIntDec (l : List Char) : Option Int := pyIntOfChars decVal 10 l

/-- Python `chr(n)`: valid for `0 ≤ n < 0x110000`, otherwise raises
(`none`).  In this development `chr` is only ever applied to values below
256, where `Char.ofNat` agrees with Python. -/
def pyChr : Int → Option Char
  | Int.ofNat n => if n < 1114112 then some (Char.ofNat n) else none
  | Int.negSucc _ => none

/-- Python `s.split(sep)` for a single-character separator. -/
def splitOnChar (sep : Char) : List Char → List (List Char)
  | [] => [[]]
  | c :: cs =>
    if c = sep then [] :: splitOnChar sep cs
    else
      match splitOnChar sep cs with
      | [] => [[c]]
      | r :: rs => (c :: r) :: rs

/-! ### `unquote` (src/utils.py)

The source splits on `%`; for every later fragment `item` it attempts
`chr(int(item[:2], 16)) + item[2:]`, and on `ValueError` (from `int` or
`chr`) emits `"%" + item` verbatim. -/

/-- One loop iteration of `unquote`'s fragment processing: the
`try`/`except ValueError` body. -/
def processItem (item : List Char) : List Char :=
  match pyIntHex (item.take 2) with
  | some n =>
    match pyChr n with
    | some c => c :: item.drop 2
    | none => '%' :: item
  | none => '%' :: item

/-- `utils.unquote`: URL-percent decoding, total by construction (every
`ValueError` path of the source is caught there and modelled by the
literal-passthrough branch of `processItem`). -/
def unquote (string : List Char) : List Char :=
  if string = [] then []
  else
    match splitOnChar '%' string with
    | [] => string
    | [_] => string
    | s0 :: items => items.foldl (fun s item => s ++ processItem item) s0

/-- Reassociated form of `unquote`'s accumulation loop. -/
def unquoteCore (string : List Char) : List Char :=
  match splitOnChar '%' string with
  | [] => string
  | s0 :: items => s0 ++ (items.map processItem).flatten

theorem splitOnChar_ne_nil (sep : Char) (l : List Char) : splitOnChar sep l ≠ [] := by
  induction l with
  | nil => simp [splitOnChar]
  | cons c cs ih =>
    simp only [splitOnChar]
    split
    · simp
    · cases h : splitOnChar sep cs with
      | nil => simp
      | cons r rs => simp

theorem splitOnChar_eq_single (sep : Char) (l x : List Char)
    (h : splitOnChar sep l = [x]) : x = l := by
  induction l generalizing x with
  | nil => simp [splitOnChar] at h; simp [h]
  | cons c cs ih =>
    simp only [splitOnChar] at h
    split at h
    · cases hcs : splitOnChar sep cs with
      | nil => exact absurd hcs (splitOnChar_ne_nil sep cs)
      | cons r rs => rw [hcs] at h; simp at h
    · cases hcs : splitOnChar sep cs with
      | nil => exact absurd hcs (splitOnChar_ne_nil sep cs)
      | cons r rs =>
        rw [hcs] at h
        simp only [List.cons.injEq] at h
        obtain ⟨h1, h2⟩ := h
        subst h2
        have := ih r (by rw [hcs])
        simp [← h1, this]

theorem splitOnChar_append (sep : Char) (pre rest : List Char) (h : sep ∉ pre) :
    splitOnChar sep (pre ++ sep :: rest) = pre :: splitOnChar sep rest := by
  induction pre with
  | nil => simp [splitOnChar]
  | cons c cs ih =>
    have hc : c ≠ sep := fun hc => h (hc ▸ List.mem_cons_self c cs)
    have hcs : sep ∉ cs := fun hm => h (List.mem_cons_of_mem c hm)
    simp only [List.cons_append, splitOnChar, if_neg hc, List.append_eq, ih hcs]

theorem splitOnChar_head (sep : Char) (l : List Char) :
    ∃ t, splitOnChar sep l = (l.takeWhile (fun c => c ≠ sep)) :: t := by
  induction l with
  | nil => exact ⟨[], rfl⟩
  | cons c cs ih =>
    by_cases hc : c = sep
    · subst hc
      refine ⟨splitOnChar c cs, ?_⟩
      simp [splitOnChar, List.takeWhile]
    · obtain ⟨t, ht⟩ := ih
      refine ⟨t, ?_⟩
      simp only [splitOnChar, if_neg hc, ht, List.takeWhile]
      simp [hc]

theorem foldl_processItem (items : List (List Char)) (s0 : List Char) :
    items.foldl (fun s item => s ++ processItem item) s0 =
      s0 ++ (items.map processItem).flatten := by
  induction items generalizing s0 with
  | nil => simp
  | cons i is ih => simp [ih, List.append_assoc]

theorem unquote_eq_core (string : List Char) : unquote string = unquoteCore string := by
  unfold unquote unquoteCore
  by_cases h : string = []
  · subst h; simp [splitOnChar]
  · rw [if_neg h]
    cases hs : splitOnChar '%' string with
    | nil => rfl
    | cons s0 items =>
      cases items with
      | nil => simp [splitOnChar_eq_single '%' string s0 hs]
      | cons i is => simp [foldl_processItem]

theorem hexVal_facts (c : Char) (v : Nat) (h : hexVal c = some v) :
    isPySpace c = false ∧ c ≠ '+' ∧ c ≠ '-' ∧ c ≠ '_' ∧ c ≠ '%' ∧ v ≤ 15 := by
  unfold hexVal at h
  split at h
  case isTrue hr =>
    simp only [Option.some.injEq] at h
    refine ⟨by simp [isPySpace]; omega, ?_, ?_, ?_, ?_, by omega⟩ <;>
      (intro heq; subst heq; exact absurd hr (by decide))
  case isFalse =>
    split at h
    case isTrue hr =>
      simp only [Option.some.injEq] at h
      refine ⟨by simp [isPySpace]; omega, ?_, ?_, ?_, ?_, by omega⟩ <;>
        (intro heq; subst heq; exact absurd hr (by decide))
    case isFalse =>
      split at h
      case isTrue hr =>
        simp only [Option.some.injEq] at h
        refine ⟨by simp [isPySpace]; omega, ?_, ?_, ?_, ?_, by omega⟩ <;>
          (intro heq; subst heq; exact absurd hr (by decide))
      case isFalse => exact absurd h (by simp)

theorem pyIntHex_two_digits (d1 d2 : Char) (v1 v2 : Nat)
    (h1 : hexVal d1 = some v1) (h2 : hexVal d2 = some v2) :
    pyIntHex [d1, d2] = some (Int.ofNat (16 * v1 + v2)) := by
  obtain ⟨hs1, hp1, hm1, hu1, _, hb1⟩ := hexVal_facts d1 v1 h1
  obtain ⟨hs2, _, _, hu2, _, hb2⟩ := hexVal_facts d2 v2 h2
  have hstrip : pyStrip [d1, d2] = [d1, d2] := by
    simp [pyStrip, List.dropWhile_cons, hs1, hs2]
  unfold pyIntHex pyIntOfChars
  rw [hstrip]
  simp only [if_neg hp1, if_neg hm1]
  simp [pyDigits, pyDigitsGo, h1, h2, hu2]

theorem processItem_two_digits (d1 d2 : Char) (rest : List Char) (v1 v2 : Nat)
    (h1 : hexVal d1 = some v1) (h2 : hexVal d2 = some v2) :
    processItem (d1 :: d2 :: rest) = Char.ofNat (16 * v1 + v2) :: rest := by
  obtain ⟨_, _, _, _, _, hb1⟩ := hexVal_facts d1 v1 h1
  obtain ⟨_, _, _, _, _, hb2⟩ := hexVal_facts d2 v2 h2
  have hchr : pyChr (Int.ofNat (16 * v1 + v2)) = some (Char.ofNat (16 * v1 + v2)) := by
    show (if 16 * v1 + v2 < 1114112 then some (Char.ofNat (16 * v1 + v2)) else none) =
      some (Char.ofNat (16 * v1 + v2))
    rw [if_pos (by omega : 16 * v1 + v2 < 1114112)]
  have ht : (d1 :: d2 :: rest).take 2 = [d1, d2] := rfl
  have hd : (d1 :: d2 :: rest).drop 2 = rest := rfl
  unfold processItem
  rw [ht, pyIntHex_two_digits d1 d2 v1 v2 h1 h2]
  show (match pyChr (Int.ofNat (16 * v1 + v2)) with
        | some c => c :: (d1 :: d2 :: rest).drop 2
        | none => '%' :: d1 :: d2 :: rest) = Char.ofNat (16 * v1 + v2) :: rest
  rw [hchr, hd]

theorem processItem_malformed (item : List Char)
    (h : ∀ n, pyIntHex (item.take 2) = some n → n < 0) :
    processItem item = '%' :: item := by
  unfold processItem
  cases hp : pyIntHex (item.take 2) with
  | none => rfl
  | some n =>
    have hn := h n hp
    cases n with
    | ofNat m => exact absurd hn (by exact Int.not_lt.mpr (Int.ofNat_nonneg m))
    | negSucc m => rfl

theorem splitOnChar_cons_ne (sep c : Char) (l : List Char) (hc : c ≠ sep)
    (r : List Char) (rs : List (List Char)) (h : splitOnChar sep l = r :: rs) :
    splitOnChar sep (c :: l) = (c :: r) :: rs := by
  simp only [splitOnChar, if_neg hc, h]

theorem unquote_wellformed_step (pre post : List Char) (d1 d2 : Char) (v1 v2 : Nat)
    (hpre : '%' ∉ pre) (h1 : hexVal d1 = some v1) (h2 : hexVal d2 = some v2) :
    unquote (pre ++ '%' :: d1 :: d2 :: post) =
      pre ++ Char.ofNat (16 * v1 + v2) :: unquote post := by
  obtain ⟨_, _, _, _, hd1, _⟩ := hexVal_facts d1 v1 h1
  obtain ⟨_, _, _, _, hd2, _⟩ := hexVal_facts d2 v2 h2
  obtain ⟨t, ht⟩ := splitOnChar_head '%' post
  have e2 := splitOnChar_cons_ne '%' d2 post hd2 _ _ ht
  have e1 := splitOnChar_cons_ne '%' d1 (d2 :: post) hd1 _ _ e2
  rw [unquote_eq_core, unquote_eq_core]
  unfold unquoteCore
  rw [splitOnChar_append '%' pre _ hpre, e1, ht]
  show pre ++ (List.map processItem
        ((d1 :: d2 :: post.takeWhile (fun c => c ≠ '%')) :: t)).flatten =
      pre ++ Char.ofNat (16 * v1 + v2) ::
        (post.takeWhile (fun c => c ≠ '%') ++ (List.map processItem t).flatten)
  rw [List.map_cons, List.flatten_cons, processItem_two_digits d1 d2 _ v1 v2 h1 h2,
    List.cons_append]

theorem unquote_malformed_step (pre rest : List Char)
    (hpre : '%' ∉ pre)
    (hbad : ∀ n, pyIntHex ((rest.takeWhile (fun c => c ≠ '%')).take 2) = some n → n < 0) :
    unquote (pre ++ '%' :: rest) = pre ++ '%' :: unquote rest := by
  obtain ⟨t, ht⟩ := splitOnChar_head '%' rest
  rw [unquote_eq_core, unquote_eq_core]
  unfold unquoteCore
  rw [splitOnChar_append '%' pre rest hpre, ht]
  show pre ++ (List.map processItem (rest.takeWhile (fun c => c ≠ '%') :: t)).flatten =
      pre ++ '%' :: (rest.takeWhile (fun c => c ≠ '%') ++ (List.map processItem t).flatten)
  rw [List.map_cons, List.flatten_cons, processItem_malformed _ hbad, List.cons_append]

/-- C7 (amended): `unquote` is total (never raises — every `ValueError`
path of the source is caught), and each `%XX` escape with two hex digits
decodes to the byte `XX`.  However, a malformed escape is passed through
literally only when Python's `int(item[:2], 16)` fails or yields a
negative value; a lone hex digit before the end of the string or the next
`%` parses successfully and is decoded rather than passed through. -/
theorem unquote_escape_handling :
    (∀ (pre post : List Char) (d1 d2 : Char) (v1 v2 : Nat), '%' ∉ pre →
        hexVal d1 = some v1 → hexVal d2 = some v2 →
        unquote (pre ++ '%' :: d1 :: d2 :: post) =
          pre ++ Char.ofNat (16 * v1 + v2) :: unquote post) ∧
    (∀ (pre rest : List Char), '%' ∉ pre →
        (∀ n, pyIntHex ((rest.takeWhile (fun c => c ≠ '%')).take 2) = some n → n < 0) →
        unquote (pre ++ '%' :: rest) = pre ++ '%' :: unquote rest) :=
  ⟨fun pre post d1 d2 v1 v2 hpre h1 h2 =>
      unquote_wellformed_step pre post d1 d2 v1 v2 hpre h1 h2,
    fun pre rest hpre hbad => unquote_malformed_step pre rest hpre hbad⟩

theorem unquote_escape_handling_witness :
    unquote ['a', '%', '4', '1', 'b'] = ['a', 'A', 'b'] ∧
    unquote ['x', '%', 'z', 'z'] = ['x', '%', 'z', 'z'] := by
  constructor
  · rw [show (['a', '%', '4', '1', 'b'] : List Char) = ['a'] ++ '%' :: '4' :: '1' :: ['b']
        from rfl,
      unquote_escape_handling.1 ['a'] ['b'] '4' '1' 4 1 (by decide) (by decide) (by decide)]
    decide
  · have hz : pyIntHex (((['z', 'z'] : List Char).takeWhile (fun c => c ≠ '%')).take 2) =
        none := by decide
    rw [show (['x', '%', 'z', 'z'] : List Char) = ['x'] ++ '%' :: ['z', 'z'] from rfl,
      unquote_escape_handling.2 ['x'] ['z', 'z'] (by decide)
        (fun n hn => by rw [hz] at hn; cases hn)]
    decide

/-- C7 counterexample: the claim says every malformed `%` escape is passed
through literally; but the single-hex-digit escape in `"%A"` is decoded by
the source to `chr(0xA)` (a newline) instead of surviving verbatim. -/
theorem unquote_single_hex_escape_not_literal :
    unquote ['%', 'A'] = [Char.ofNat 10] ∧ unquote ['%', 'A'] ≠ ['%', 'A'] := by decide

/-! ### `Request.json` (src/http.py)

The accessor is
`if self._json is None and self.body: try: self._json = json.loads(self.body)
except ValueError: pass` followed by `return self._json`.  JSON decoding
is an external black-box codec: it is a parameter
`loads : List Nat → Option (Option α)`, where the outer `none` models a
raised `ValueError` and `some none` models a successful decode of JSON
`null` (Python `None`).  The accessor is total — the only raising call is
wrapped in the `try`/`except` modelled by the outer `Option`. -/

/-- The fields of `Request` relevant to the `json` property: the raw body
(`None`, empty or nonempty bytes) and the `_json` cache slot. -/
structure RequestJsonState (α : Type) where
  body : Option (List Nat)
  cachedJson : Option α

/-- `Request.json`: returns the value seen by the caller, the request
state afterwards, and whether `json.loads` was invoked during this
access. -/
def requestJsonProperty {α : Type} (loads : List Nat → Option (Option α))
    (r : RequestJsonState α) : Option α × RequestJsonState α × Bool :=
  match r.cachedJson with
  | some v => (some v, r, false)
  | none =>
    match r.body with
    | none => (none, r, false)
    | some l =>
      if l = [] then (none, r, false)
      else
        match loads l with
        | some v => (v, { r with cachedJson := v }, true)
        | none => (none, r, true)

/-- C8 (amended): the `json` accessor never raises (total, failure caught);
repeated accesses return the same value and leave the same state; a decode
that produced a value is cached so the second access does not re-parse;
and when the decoder fails, or the body is absent or empty, the value is
`none` rather than an error — but a failed (or `null`) decode leaves the
cache slot `None`, so it is re-attempted on every access rather than
attempted at most once. -/
theorem request_json_access_behavior (α : Type)
    (loads : List Nat → Option (Option α)) (body : Option (List Nat)) :
    (requestJsonProperty loads
        (requestJsonProperty loads ⟨body, none⟩).2.1).1 =
      (requestJsonProperty loads ⟨body, none⟩).1 ∧
    (requestJsonProperty loads
        (requestJsonProperty loads ⟨body, none⟩).2.1).2.1 =
      (requestJsonProperty loads ⟨body, none⟩).2.1 ∧
    (∀ j : α, (requestJsonProperty loads ⟨body, none⟩).1 = some j →
      (requestJsonProperty loads
        (requestJsonProperty loads ⟨body, none⟩).2.1).2.2 = false) ∧
    (∀ l : List Nat, body = some l → l ≠ [] → loads l = none →
      (requestJsonProperty loads ⟨body, none⟩).1 = none) ∧
    (body = none → (requestJsonProperty loads ⟨body, none⟩).1 = none) := by
  cases body with
  | none => simp [requestJsonProperty]
  | some l =>
    by_cases hl : l = []
    · subst hl; simp [requestJsonProperty]
    · cases hv : loads l with
      | none => simp [requestJsonProperty, hl, hv]
      | some v =>
        cases v with
        | none => simp [requestJsonProperty, hl, hv]
        | some j => simp [requestJsonProperty, hl, hv]

theorem request_json_access_behavior_witness :
    ((requestJsonProperty (fun _ => some (some 42)) ⟨some [123], none⟩).1 = some 42) ∧
    ((requestJsonProperty (fun _ => some (some 42))
        (requestJsonProperty (fun _ => some (some 42)) ⟨some [123], none⟩).2.1).2.2 =
      false) ∧
    ((requestJsonProperty (fun _ => (none : Option (Option Nat)))
        ⟨some [1], none⟩).1 = none) := by
  refine ⟨by decide, ?_, ?_⟩
  · exact (request_json_access_behavior Nat (fun _ => some (some 42))
      (some [123])).2.2.1 42 (by decide)
  · exact (request_json_access_behavior Nat (fun _ => none)
      (some [1])).2.2.2.1 [1] rfl (by decide) rfl

/-- C8 counterexample: with a body whose decode fails, the cache slot stays
`None`, so `json.loads` is invoked again on the second access — decoding is
not "attempted at most once". -/
theorem request_json_reparses_after_failure :
    ((requestJsonProperty (fun _ => (none : Option (Option Nat)))
        ⟨some [123], none⟩).2.2 = true) ∧
    ((requestJsonProperty (fun _ => (none : Option (Option Nat)))
        (requestJsonProperty (fun _ => (none : Option (Option Nat)))
          ⟨some [123], none⟩).2.1).2.2 = true) := by decide

/-! ### Header parsing (src/microserver.py, `_handle_request`)

Header lines are byte strings (`List Nat`).  For each line the source
does: skip if no `b":"`; `key, value = line.decode().strip().split(":", 1)`;
skip unless the key is nonempty and all alphanumeric/`-`/`_`; then
`headers[key.lower()] = value.strip()` (a plain dict assignment).  The
byte-per-character model is exact for the MicroPython target, whose
`bytes.decode()` is a permissive passthrough; keys are restricted to
ASCII by the validation anyway.  The loop's `431` limits (more than
`_MAX_HEADERS = 50` stored headers, or a line over `_MAX_HEADER_SIZE =
8192` bytes) abort the whole request, modelled by `none`. -/

/-- ASCII whitespace bytes stripped by `str.strip()`. -/
def isWsByte (b : Nat) : Bool :=
  decide (b = 9 ∨ b = 10 ∨ b = 11 ∨ b = 12 ∨ b = 13 ∨
          b = 28 ∨ b = 29 ∨ b = 30 ∨ b = 31 ∨ b = 32)

/-- `str.strip()` at byte level. -/
def pyStripBytes (l : List Nat) : List Nat :=
  ((l.dropWhile isWsByte).reverse.dropWhile isWsByte).reverse

/-- `str.lower()` on one ASCII byte. -/
def lowerByte (b : Nat) : Nat := if 65 ≤ b ∧ b ≤ 90 then b + 32 else b

/-- `str.lower()` at byte level. -/
def lowerBytes (l : List Nat) : List Nat := l.map lowerByte

/-- `str.isalnum()` for an ASCII byte. -/
def isAlnumByte (b : Nat) : Bool :=
  decide ((48 ≤ b ∧ b ≤ 57) ∨ (65 ≤ b ∧ b ≤ 90) ∨ (97 ≤ b ∧ b ≤ 122))

/-- The header token check `c.isalnum() or c in "-_"` (RFC 7230 §3.2). -/
def isHeaderKeyByte (b : Nat) : Bool := isAlnumByte b || decide (b = 45) || decide (b = 95)

/-- Python dict assignment `d[k] = v`: update in place or append. -/
def dictInsert {κ ν : Type} [DecidableEq κ] : List (κ × ν) → κ → ν → List (κ × ν)
  | [], k, v => [(k, v)]
  | (k0, v0) :: rest, k, v =>
    if k0 = k then (k0, v) :: rest else (k0, v0) :: dictInsert rest k v

/-- Python `d.get(k)`. -/
def dictGet {κ ν : Type} [DecidableEq κ] : List (κ × ν) → κ → Option ν
  | [], _ => none
  | (k0, v0) :: rest, k => if k0 = k then some v0 else dictGet rest k

/-- One header line of `_handle_request`'s header loop: `none` when the
line is skipped (`continue`), `some (key, value)` when an entry is
stored. -/
def parseHeaderLine (line : List Nat) : Option (List Nat × List Nat) :=
  if 58 ∈ line then
    let stripped := pyStripBytes line
    let key := stripped.takeWhile (fun b => b ≠ 58)
    let value := stripped.drop (key.length + 1)
    if key ≠ [] ∧ key.all isHeaderKeyByte then some (lowerBytes key, pyStripBytes value)
    else none
  else none

/-- The header loop over the lines before the blank line, carrying the
dict and `header_count`; `none` models the `431` abort paths. -/
def parseHeadersGo : List (List Nat) → List (List Nat × List Nat) → Nat →
    Option (List (List Nat × List Nat))
  | lines, d, count =>
    if count ≥ 50 then none
    else
      match lines with
      | [] => some d
      | line :: rest =>
        if line.length > 8192 then none
        else
          match parseHeaderLine line with
          | some (k, v) => parseHeadersGo rest (dictInsert d k v) (count + 1)
          | none => parseHeadersGo rest d count

/-- Parse all header lines of one request. -/
def parseHeaders (lines : List (List Nat)) : Option (List (List Nat × List Nat)) :=
  parseHeadersGo lines [] 0

theorem dictGet_insert {κ ν : Type} [DecidableEq κ] (d : List (κ × ν)) (k : κ) (v : ν) :
    dictGet (dictInsert d k v) k = some v := by
  induction d with
  | nil => simp [dictInsert, dictGet]
  | cons p rest ih =>
    obtain ⟨k0, v0⟩ := p
    by_cases hk : k0 = k
    · simp [dictInsert, dictGet, hk]
    · simp [dictInsert, dictGet, hk, ih]

theorem parseHeadersGo_append_last (line k v : List Nat)
    (hline : parseHeaderLine line = some (k, v)) :
    ∀ (lines : List (List Nat)) (d0 : List (List Nat × List Nat)) (c0 : Nat)
      (d : List (List Nat × List Nat)),
      parseHeadersGo (lines ++ [line]) d0 c0 = some d → dictGet d k = some v := by
  intro lines
  induction lines with
  | nil =>
    intro d0 c0 d h
    unfold parseHeadersGo at h
    split at h
    · cases h
    · simp only [List.nil_append] at h
      split at h
      · cases h
      · rw [hline] at h
        unfold parseHeadersGo at h
        split at h
        · cases h
        · simp only [Option.some.injEq] at h
          subst h
          exact dictGet_insert d0 k v
  | cons l ls ih =>
    intro d0 c0 d h
    unfold parseHeadersGo at h
    split at h
    · cases h
    · simp only [List.cons_append] at h
      split at h
      · cases h
      · cases hpl : parseHeaderLine l with
        | some p =>
          obtain ⟨k1, v1⟩ := p
          rw [hpl] at h
          exact ih (dictInsert d0 k1 v1) (c0 + 1) d h
        | none =>
          rw [hpl] at h
          exact ih d0 c0 d h

theorem lowerByte_idem (b : Nat) : lowerByte (lowerByte b) = lowerByte b := by
  unfold lowerByte
  split <;> (try split) <;> omega

theorem lowerBytes_idem (l : List Nat) : lowerBytes (lowerBytes l) = lowerBytes l := by
  unfold lowerBytes
  rw [List.map_map]
  exact List.map_congr_left (fun b _ => lowerByte_idem b)

theorem parseHeaderLine_key_lower (line k v : List Nat)
    (h : parseHeaderLine line = some (k, v)) : lowerBytes k = k := by
  unfold parseHeaderLine at h
  split at h
  · dsimp only at h
    split at h
    · simp only [Option.some.injEq, Prod.mk.injEq] at h
      rw [← h.1]
      exact lowerBytes_idem _
    · cases h
  · cases h

theorem ws_lowerByte (b : Nat) : isWsByte (lowerByte b) = isWsByte b := by
  unfold isWsByte lowerByte
  split
  · rw [decide_eq_decide]
    omega
  · rfl

theorem keyByte_lowerByte (b : Nat) : isHeaderKeyByte (lowerByte b) = isHeaderKeyByte b := by
  unfold isHeaderKeyByte isAlnumByte lowerByte
  split
  · rename_i hb
    have h1 : (decide ((48 ≤ b + 32 ∧ b + 32 ≤ 57) ∨ (65 ≤ b + 32 ∧ b + 32 ≤ 90) ∨
        (97 ≤ b + 32 ∧ b + 32 ≤ 122)) : Bool) = true := by
      rw [decide_eq_true_eq]
      omega
    have h2 : (decide ((48 ≤ b ∧ b ≤ 57) ∨ (65 ≤ b ∧ b ≤ 90) ∨
        (97 ≤ b ∧ b ≤ 122)) : Bool) = true := by
      rw [decide_eq_true_eq]
      omega
    have h3 : (decide (b + 32 = 45) : Bool) = decide (b = 45) := by
      rw [decide_eq_decide]
      omega
    have h4 : (decide (b + 32 = 95) : Bool) = decide (b = 95) := by
      rw [decide_eq_decide]
      omega
    rw [h1, h2, h3, h4]
  · rfl

theorem lowerByte_eq_58 (b : Nat) : lowerByte b = 58 ↔ b = 58 := by
  unfold lowerByte
  split <;> omega

theorem dropWhile_ws_append58 (a b : List Nat) :
    (a ++ 58 :: b).dropWhile isWsByte = a.dropWhile isWsByte ++ 58 :: b := by
  have h58 : isWsByte 58 = false := rfl
  induction a with
  | nil => simp [List.dropWhile_cons, h58]
  | cons c a ih =>
    by_cases hc : isWsByte c = true
    · simp [List.dropWhile_cons, hc, ih]
    · simp only [Bool.not_eq_true] at hc
      simp [List.dropWhile_cons, hc]

theorem takeWhile_ne58_append (a b : List Nat) (ha : (58 : Nat) ∉ a) :
    (a ++ 58 :: b).takeWhile (fun x => x ≠ 58) = a := by
  induction a with
  | nil => simp [List.takeWhile_cons]
  | cons c a ih =>
    have hc : c ≠ 58 := fun hc => ha (hc ▸ List.mem_cons_self c a)
    have ha' : (58 : Nat) ∉ a := fun hm => ha (List.mem_cons_of_mem c hm)
    rw [List.cons_append,
      List.takeWhile_cons_of_pos (by simpa using hc), ih ha']

theorem drop_after58 (a b : List Nat) : (a ++ 58 :: b).drop (a.length + 1) = b := by
  induction a with
  | nil => simp
  | cons c a ih => simp [ih]

theorem pyStripBytes_decomp (key value : List Nat) :
    pyStripBytes (key ++ 58 :: value) =
      key.dropWhile isWsByte ++ 58 :: (value.reverse.dropWhile isWsByte).reverse := by
  unfold pyStripBytes
  rw [dropWhile_ws_append58]
  rw [show (key.dropWhile isWsByte ++ 58 :: value).reverse =
      value.reverse ++ 58 :: (key.dropWhile isWsByte).reverse from by simp]
  rw [dropWhile_ws_append58]
  simp

theorem dropWhile_lowerBytes (l : List Nat) :
    (lowerBytes l).dropWhile isWsByte = lowerBytes (l.dropWhile isWsByte) := by
  unfold lowerBytes
  rw [List.dropWhile_map]
  have hws : isWsByte ∘ lowerByte = isWsByte := funext ws_lowerByte
  rw [hws]

theorem mem58_lowerBytes (l : List Nat) (h : (58 : Nat) ∉ l) :
    (58 : Nat) ∉ lowerBytes l := by
  intro hm
  obtain ⟨b, hb, he⟩ := List.mem_map.mp hm
  exact h (((lowerByte_eq_58 b).mp he) ▸ hb)

theorem all_key_lowerBytes (l : List Nat) :
    (lowerBytes l).all isHeaderKeyByte = l.all isHeaderKeyByte := by
  unfold lowerBytes
  rw [List.all_map]
  have hkb : isHeaderKeyByte ∘ lowerByte = isHeaderKeyByte := funext keyByte_lowerByte
  rw [hkb]

theorem mem_of_mem_dropWhile_ws (l : List Nat) (b : Nat)
    (h : b ∈ l.dropWhile isWsByte) : b ∈ l :=
  (List.dropWhile_sublist isWsByte).subset h

theorem parseHeaderLine_key_case (key value k v : List Nat) (hkey : (58 : Nat) ∉ key)
    (h : parseHeaderLine (key ++ 58 :: value) = some (k, v)) :
    parseHeaderLine (lowerBytes key ++ 58 :: value) = some (k, v) := by
  have h58dw : (58 : Nat) ∉ key.dropWhile isWsByte :=
    fun hm => hkey (mem_of_mem_dropWhile_ws key 58 hm)
  have h58dw' : (58 : Nat) ∉ lowerBytes (key.dropWhile isWsByte) :=
    mem58_lowerBytes _ h58dw
  unfold parseHeaderLine at h ⊢
  rw [if_pos (by simp : (58 : Nat) ∈ key ++ 58 :: value)] at h
  rw [if_pos (by simp : (58 : Nat) ∈ lowerBytes key ++ 58 :: value)]
  dsimp only at h ⊢
  rw [pyStripBytes_decomp key value] at h
  rw [pyStripBytes_decomp (lowerBytes key) value, dropWhile_lowerBytes]
  rw [takeWhile_ne58_append _ _ h58dw, drop_after58] at h
  rw [takeWhile_ne58_append _ _ h58dw', drop_after58]
  split at h
  case isTrue hval =>
    rw [if_pos ?_]
    · rw [show lowerBytes (lowerBytes (key.dropWhile isWsByte)) =
          lowerBytes (key.dropWhile isWsByte) from lowerBytes_idem _]
      exact h
    · refine ⟨?_, ?_⟩
      · intro hnil
        exact hval.1 (by simpa [lowerBytes] using hnil)
      · rw [all_key_lowerBytes]
        exact hval.2
  case isFalse => cases h

/-- C2 (amended): header parsing is case-insensitive — every stored key is
lowercase-normalized, and lowercasing the key characters of a header line
does not change the entry it produces — but when the same header key
appears on multiple lines of one request, the value retained is the one
from the LAST occurrence, not the first: each line executes
`headers[key.lower()] = value.strip()`, and the later dict assignment
overwrites the earlier one. -/
theorem header_case_insensitive_last_wins :
    (∀ (lines : List (List Nat)) (line k v : List Nat)
        (d : List (List Nat × List Nat)),
      parseHeaderLine line = some (k, v) →
      parseHeaders (lines ++ [line]) = some d →
      dictGet d k = some v) ∧
    (∀ (line k v : List Nat), parseHeaderLine line = some (k, v) → lowerBytes k = k) ∧
    (∀ (key value k v : List Nat), (58 : Nat) ∉ key →
      parseHeaderLine (key ++ 58 :: value) = some (k, v) →
      parseHeaderLine (lowerBytes key ++ 58 :: value) = some (k, v)) :=
  ⟨fun lines line k v d hl hp => parseHeadersGo_append_last line k v hl lines [] 0 d hp,
    fun line k v h => parseHeaderLine_key_lower line k v h,
    fun key value k v hk h => parseHeaderLine_key_case key value k v hk h⟩

theorem header_case_insensitive_last_wins_witness :
    dictGet [([99, 116], [97]), ([120, 45, 97], [50])] [120, 45, 97] = some [50] ∧
    lowerBytes [120, 45, 97] = [120, 45, 97] ∧
    parseHeaderLine (lowerBytes [88, 45, 65] ++ 58 :: [32, 49]) =
      some ([120, 45, 97], [49]) := by
  refine ⟨?_, ?_, ?_⟩
  · exact header_case_insensitive_last_wins.1 [[67, 84, 58, 97]] [88, 45, 65, 58, 32, 50]
      [120, 45, 97] [50] [([99, 116], [97]), ([120, 45, 97], [50])]
      (by decide) (by decide)
  · exact header_case_insensitive_last_wins.2.1 [88, 45, 65, 58, 32, 49]
      [120, 45, 97] [49] (by decide)
  · exact header_case_insensitive_last_wins.2.2 [88, 45, 65] [32, 49]
      [120, 45, 97] [49] (by decide) (by decide)

/-- C2 counterexample: two header lines `X-A: 1` and `X-A: 2` in one
request leave `headers["x-a"] = "2"` — the value from the second (last)
occurrence, not the first as the claim states. -/
theorem header_duplicate_first_does_not_win :
    (parseHeaders [[88, 45, 65, 58, 32, 49], [88, 45, 65, 58, 32, 50]]).bind
        (fun d => dictGet d [120, 45, 97]) = some [50] ∧
    some [50] ≠ some [49] := by decide

/-! ### `_create_request` (src/microserver.py)

`content_length = int(content_length_header) if content_length_header
else 0`, with `ValueError` answered by a `400` response (and `return
None`, so no `Request` is dispatched and the keep-alive loop breaks);
`content_length > max_body_size` answered by `413`; a positive length is
read with `reader.read(content_length)` under `body_timeout`, a timeout
answered by `408`.  All three error responses are sent with
`keep_alive=False` (the serializer then writes `Connection: close`).
`readResult` models the body read: `none` is a timeout, `some bs` the
bytes returned; the second component of the result records how many
bytes were requested from the reader, when a read was issued. -/

/-- Outcome of `_create_request`: either an error response was sent and
`None` returned (no `Request` reaches the middleware pipeline), or a
`Request` with the given body was built. -/
inductive CreateReqResult where
  | reject (status : Nat) (keepAlive : Bool)
  | request (body : Option (List Nat))
  deriving DecidableEq

/-- `MicroServer._create_request`, given the value of the
`content-length` header (already stripped by header parsing), the
configured `max_body_size`, and the body-read outcome. -/
def createRequest (clValue : Option (List Char)) (maxBody : Nat)
    (readResult : Option (List Nat)) : CreateReqResult × Option Nat :=
  match clValue with
  | none => (.request none, none)
  | some v =>
    if v = [] then (.request none, none)
    else
      match pyIntDec v with
      | none => (.reject 400 false, none)
      | some n =>
        if 0 < n then
          if (maxBody : Int) < n then (.reject 413 false, none)
          else
            match readResult with
            | none => (.reject 408 false, some n.toNat)
            | some bs => (.request (some bs), some n.toNat)
        else (.request none, none)

/-- C6 (amended): a non-empty `Content-Length` value that is not a valid
integer yields 400; a valid value exceeding `max_body_size` yields 413
with the connection not kept alive; a positive valid value within the cap
causes exactly that many bytes to be requested from the reader under the
body timeout, a timeout yielding 408; in every error case no `Request` is
dispatched.  (An EMPTY header value, however, is treated as length 0 —
`int(v) if v else 0` — and proceeds without a 400.) -/
theorem create_request_content_length_handling
    (v : List Char) (maxBody : Nat) (readResult : Option (List Nat)) :
    (v ≠ [] → pyIntDec v = none →
      createRequest (some v) maxBody readResult = (.reject 400 false, none)) ∧
    (∀ n : Int, pyIntDec v = some n → (maxBody : Int) < n →
      createRequest (some v) maxBody readResult = (.reject 413 false, none)) ∧
    (∀ n : Int, pyIntDec v = some n → 0 < n → n ≤ (maxBody : Int) →
      (createRequest (some v) maxBody readResult).2 = some n.toNat ∧
      (readResult = none →
        createRequest (some v) maxBody readResult = (.reject 408 false, some n.toNat)) ∧
      (∀ bs, readResult = some bs →
        createRequest (some v) maxBody readResult = (.request (some bs), some n.toNat))) := by
  refine ⟨?_, ?_, ?_⟩
  · intro hne hint
    unfold createRequest
    dsimp only
    rw [if_neg hne, hint]
  · intro n hint hcap
    have hne : v ≠ [] := by
      intro he
      rw [he] at hint
      cases hint
    have hpos : (0 : Int) < n := lt_of_le_of_lt (Int.natCast_nonneg maxBody) hcap
    unfold createRequest
    dsimp only
    rw [if_neg hne, hint]
    dsimp only
    rw [if_pos hpos, if_pos hcap]
  · intro n hint hpos hcap
    have hne : v ≠ [] := by
      intro he
      rw [he] at hint
      cases hint
    unfold createRequest
    dsimp only
    rw [if_neg hne, hint]
    dsimp only
    rw [if_pos hpos, if_neg (by omega : ¬ (maxBody : Int) < n)]
    cases readResult with
    | none =>
      refine ⟨rfl, fun _ => rfl, fun bs hbs => ?_⟩
      cases hbs
    | some bs =>
      refine ⟨rfl, fun hr => ?_, fun bs2 hbs => ?_⟩
      · cases hr
      · cases hbs
        rfl

theorem create_request_content_length_witness :
    createRequest (some ['a', 'b', 'c']) 5 none = (.reject 400 false, none) ∧
    createRequest (some ['9', '9']) 10 none = (.reject 413 false, none) ∧
    createRequest (some ['5']) 10 none = (.reject 408 false, some 5) ∧
    createRequest (some ['5']) 10 (some [1, 2, 3, 4, 5]) =
      (.request (some [1, 2, 3, 4, 5]), some 5) := by
  refine ⟨?_, ?_, ?_, ?_⟩
  · exact (create_request_content_length_handling ['a', 'b', 'c'] 5 none).1
      (by decide) (by decide)
  · exact (create_request_content_length_handling ['9', '9'] 10 none).2.1 99
      (by decide) (by decide)
  · exact ((create_request_content_length_handling ['5'] 10 none).2.2 5
      (by decide) (by decide) (by decide)).2.1 rfl
  · exact ((create_request_content_length_handling ['5'] 10
      (some [1, 2, 3, 4, 5])).2.2 5 (by decide) (by decide) (by decide)).2.2
      [1, 2, 3, 4, 5] rfl

/-- C6 counterexample: an empty `Content-Length` value is not a valid
integer (Python `int("")` raises), yet the source treats it as length 0
and builds a `Request` instead of answering 400. -/
theorem create_request_empty_value_no_400 :
    createRequest (some []) 1048576 none = (.request none, none) ∧
    CreateReqResult.request none ≠ CreateReqResult.reject 400 false ∧
    pyIntDec [] = none := by decide

/-! ### Chunked transfer encoding (src/microserver.py)

`_send_streaming_body` writes `b"Transfer-Encoding: chunked\\r\\n\\r\\n"`,
then `_write_chunk` for every produced chunk, then `b"0\\r\\n\\r\\n"`.
`_write_chunk` returns immediately on a falsy (empty) chunk and otherwise
writes `f"{len(chunk):x}".encode() + b"\\r\\n" + chunk + b"\\r\\n"` in one
write.  Chunks are modelled as byte lists (the source `str.encode()`s
text chunks first).  A reference decoder reads frames back to check the
roundtrip. -/

/-- One hexadecimal digit byte of Python's `f"{n:x}"` (lowercase). -/
def hexDigitByte (k : Nat) : Nat := if k < 10 then 48 + k else 87 + k

/-- Hex digit bytes of `n`, least significant first, with a structural
fuel bound (any fuel `≥ n` is exact, and `n` itself always suffices). -/
def toHexRevGo : Nat → Nat → List Nat
  | _, 0 => []
  | 0, _ => []
  | fuel + 1, n => hexDigitByte (n % 16) :: toHexRevGo fuel (n / 16)

/-- Hex digit bytes of `n`, least significant first. -/
def toHexRev (n : Nat) : List Nat := toHexRevGo n n

/-- Python `f"{n:x}"` as bytes. -/
def toHexBytes (n : Nat) : List Nat := if n = 0 then [48] else (toHexRev n).reverse

/-- `MicroServer._write_chunk`: empty chunks are skipped entirely. -/
def writeChunk (chunk : List Nat) : List Nat :=
  if chunk = [] then []
  else toHexBytes chunk.length ++ [13, 10] ++ chunk ++ [13, 10]

/-- The spec's frame for one chunk: `<hex-len>\\r\\n<chunk>\\r\\n` (with no
empty-chunk exemption). -/
def encodeChunk (chunk : List Nat) : List Nat :=
  toHexBytes chunk.length ++ [13, 10] ++ chunk ++ [13, 10]

/-- The bytes of `b"Transfer-Encoding: chunked\\r\\n\\r\\n"`. -/
def teHeaderBytes : List Nat := "Transfer-Encoding: chunked\r\n\r\n".data.map Char.toNat

/-- The chunk framing part of the stream: every produced chunk through
`_write_chunk`, then the terminator `b"0\\r\\n\\r\\n"`. -/
def bodyStream (chunks : List (List Nat)) : List Nat :=
  (chunks.map writeChunk).flatten ++ [48, 13, 10, 13, 10]

/-- `MicroServer._send_streaming_body`: the full byte stream written. -/
def sendStreamingBody (chunks : List (List Nat)) : List Nat :=
  teHeaderBytes ++ bodyStream chunks

/-- Hex digit byte recognizer for the reference decoder. -/
def isHexByte (b : Nat) : Bool :=
  decide ((48 ≤ b ∧ b ≤ 57) ∨ (97 ≤ b ∧ b ≤ 102) ∨ (65 ≤ b ∧ b ≤ 70))

/-- Value of a hex digit byte. -/
def hexByteVal (b : Nat) : Nat :=
  if 48 ≤ b ∧ b ≤ 57 then b - 48
  else if 97 ≤ b ∧ b ≤ 102 then b - 87
  else b - 55

/-- Big-endian hex digit accumulation. -/
def parseHexBytes (l : List Nat) : Nat :=
  l.foldl (fun acc b => 16 * acc + hexByteVal b) 0

/-- Reference chunked-stream decoder (fuel-indexed; each frame consumes
one unit).  `some cs` means the stream is exactly the frames of `cs`
followed by the `0\\r\\n\\r\\n` terminator. -/
def decodeChunksGo : Nat → List Nat → Option (List (List Nat))
  | 0, _ => none
  | fuel + 1, bs =>
    let ds := bs.takeWhile isHexByte
    if ds = [] then none
    else
      let n := parseHexBytes ds
      match bs.drop ds.length with
      | 13 :: 10 :: r2 =>
        if n = 0 then (if r2 = [13, 10] then some [] else none)
        else
          let chunk := r2.take n
          if chunk.length = n then
            match r2.drop n with
            | 13 :: 10 :: r4 => (decodeChunksGo fuel r4).map (fun cs => chunk :: cs)
            | _ => none
          else none
      | _ => none

/-- Decode a chunked stream; the input length bounds the frame count. -/
def decodeChunks (bs : List Nat) : Option (List (List Nat)) :=
  decodeChunksGo bs.length bs

theorem hexDigitByte_isHex (k : Nat) (hk : k < 16) : isHexByte (hexDigitByte k) = true := by
  unfold isHexByte hexDigitByte
  split <;> (rw [decide_eq_true_eq]; omega)

theorem hexDigitByte_val (k : Nat) (hk : k < 16) : hexByteVal (hexDigitByte k) = k := by
  unfold hexByteVal hexDigitByte
  split <;> (try split) <;> (try split) <;> omega

theorem toHexRevGo_all_hex (fuel : Nat) :
    ∀ (n : Nat), ∀ b ∈ toHexRevGo fuel n, isHexByte b = true := by
  induction fuel with
  | zero =>
    intro n b hb
    cases n <;> cases hb
  | succ f ih =>
    intro n b hb
    cases n with
    | zero => cases hb
    | succ m =>
      rcases List.mem_cons.mp hb with he | ht
      · exact he ▸ hexDigitByte_isHex ((m + 1) % 16) (Nat.mod_lt (m + 1) (by omega))
      · exact ih ((m + 1) / 16) b ht

theorem toHexRev_all_hex (n : Nat) : ∀ b ∈ toHexRev n, isHexByte b = true :=
  toHexRevGo_all_hex n n

theorem parseHexBytes_append_digit (l : List Nat) (d : Nat) :
    parseHexBytes (l ++ [d]) = 16 * parseHexBytes l + hexByteVal d := by
  unfold parseHexBytes
  rw [List.foldl_append]
  rfl

theorem parseHexBytes_toHexRevGo (fuel : Nat) :
    ∀ n : Nat, n ≤ fuel → parseHexBytes (toHexRevGo fuel n).reverse = n := by
  induction fuel with
  | zero =>
    intro n hn
    interval_cases n
    rfl
  | succ f ih =>
    intro n hn
    cases n with
    | zero => rfl
    | succ m =>
      show parseHexBytes (hexDigitByte ((m + 1) % 16) ::
        toHexRevGo f ((m + 1) / 16)).reverse = m + 1
      rw [List.reverse_cons, parseHexBytes_append_digit,
        ih ((m + 1) / 16) (by omega),
        hexDigitByte_val ((m + 1) % 16) (Nat.mod_lt (m + 1) (by omega))]
      omega

theorem parseHexBytes_toHexRev (n : Nat) :
    parseHexBytes (toHexRev n).reverse = n :=
  parseHexBytes_toHexRevGo n n (Nat.le_refl n)

theorem toHexBytes_all_hex (n : Nat) : ∀ b ∈ toHexBytes n, isHexByte b = true := by
  intro b hb
  unfold toHexBytes at hb
  split at hb
  · rcases List.mem_singleton.mp hb with he
    subst he
    rfl
  · exact toHexRev_all_hex n b (List.mem_reverse.mp hb)

theorem parseHexBytes_toHexBytes (n : Nat) : parseHexBytes (toHexBytes n) = n := by
  unfold toHexBytes
  split
  · rename_i hn
    subst hn
    rfl
  · exact parseHexBytes_toHexRev n

theorem toHexBytes_ne_nil (n : Nat) : toHexBytes n ≠ [] := by
  unfold toHexBytes
  split
  · simp
  · rename_i hn
    cases n with
    | zero => exact absurd rfl hn
    | succ m => simp [toHexRev, toHexRevGo]

theorem takeWhile_hex_append13 (a b : List Nat) (ha : ∀ x ∈ a, isHexByte x = true) :
    (a ++ 13 :: b).takeWhile isHexByte = a := by
  induction a with
  | nil =>
    rw [List.nil_append]
    exact List.takeWhile_cons_of_neg (by decide)
  | cons x a ih =>
    have hx : isHexByte x = true := ha x (List.mem_cons_self x a)
    have ha' : ∀ y ∈ a, isHexByte y = true := fun y hy => ha y (List.mem_cons_of_mem x hy)
    rw [List.cons_append, List.takeWhile_cons_of_pos hx, ih ha']

theorem bodyStream_cons' (c : List Nat) (cs : List (List Nat)) :
    bodyStream (c :: cs) = writeChunk c ++ bodyStream cs := by
  simp [bodyStream, List.append_assoc]

theorem bodyStream_cons (c : List Nat) (cs : List (List Nat)) (hc : c ≠ []) :
    bodyStream (c :: cs) =
      toHexBytes c.length ++ 13 :: 10 :: (c ++ 13 :: 10 :: bodyStream cs) := by
  rw [bodyStream_cons']
  unfold writeChunk
  rw [if_neg hc]
  simp [List.append_assoc]

theorem decodeChunksGo_bodyStream (chunks : List (List Nat)) :
    ∀ fuel : Nat, chunks.length < fuel → (∀ c ∈ chunks, c ≠ []) →
      decodeChunksGo fuel (bodyStream chunks) = some chunks := by
  induction chunks with
  | nil =>
    intro fuel hfuel _
    cases fuel with
    | zero => omega
    | succ f => rfl
  | cons c cs ih =>
    intro fuel hfuel hne
    cases fuel with
    | zero => omega
    | succ f =>
      have hc : c ≠ [] := hne c (List.mem_cons_self c cs)
      have hne' : ∀ x ∈ cs, x ≠ [] := fun x hx => hne x (List.mem_cons_of_mem c hx)
      rw [bodyStream_cons c cs hc]
      unfold decodeChunksGo
      dsimp only
      rw [takeWhile_hex_append13 _ _ (toHexBytes_all_hex c.length),
        if_neg (toHexBytes_ne_nil c.length), List.drop_left]
      dsimp only
      rw [parseHexBytes_toHexBytes,
        if_neg (by simp [hc] : ¬ c.length = 0),
        List.take_left, if_pos rfl, List.drop_left]
      dsimp only
      rw [ih f (by simpa using hfuel) hne']
      rfl

theorem writeChunk_length_pos (c : List Nat) (hc : c ≠ []) :
    1 ≤ (writeChunk c).length := by
  unfold writeChunk
  rw [if_neg hc]
  have := List.length_pos.mpr (toHexBytes_ne_nil c.length)
  simp only [List.length_append]
  omega

theorem bodyStream_length_bound (chunks : List (List Nat))
    (hne : ∀ c ∈ chunks, c ≠ []) : chunks.length < (bodyStream chunks).length := by
  induction chunks with
  | nil => simp [bodyStream]
  | cons c cs ih =>
    have hc := writeChunk_length_pos c (hne c (List.mem_cons_self c cs))
    have ih' := ih (fun x hx => hne x (List.mem_cons_of_mem c hx))
    rw [bodyStream_cons', List.length_append]
    simp only [List.length_cons]
    omega

theorem writeChunk_eq_encodeChunk (c : List Nat) (hc : c ≠ []) :
    writeChunk c = encodeChunk c := by
  unfold writeChunk encodeChunk
  rw [if_neg hc]

theorem bodyStream_filter_empty (chunks : List (List Nat)) :
    bodyStream chunks = bodyStream (chunks.filter (fun c => c ≠ [])) := by
  induction chunks with
  | nil => rfl
  | cons c cs ih =>
    by_cases hc : c = []
    · subst hc
      rw [bodyStream_cons']
      rw [show writeChunk [] = [] from rfl]
      simp only [List.nil_append, List.filter_cons]
      rw [if_neg (by simp)]
      exact ih
    · rw [bodyStream_cons']
      simp only [List.filter_cons]
      rw [if_pos (by simp [hc]), bodyStream_cons', ih]

/-- C4 (amended): for every finite sequence of NON-EMPTY produced chunks
the serialized stream after the `Transfer-Encoding` header equals the
concatenation of `<hex-len>\\r\\n<chunk>\\r\\n` frames followed by the
terminator `0\\r\\n\\r\\n`, and decoding reproduces exactly the original
chunk sequence; in general `_write_chunk` silently skips every EMPTY
produced chunk, so the stream equals that of the empty-chunk-free
subsequence (the claim's per-chunk frame equality fails for empty
chunks). -/
theorem chunked_body_stream_roundtrip :
    (∀ chunks : List (List Nat), (∀ c ∈ chunks, c ≠ []) →
      sendStreamingBody chunks =
        teHeaderBytes ++ ((chunks.map encodeChunk).flatten ++ [48, 13, 10, 13, 10]) ∧
      decodeChunks (bodyStream chunks) = some chunks) ∧
    (∀ chunks : List (List Nat),
      bodyStream chunks = bodyStream (chunks.filter (fun c => c ≠ []))) := by
  constructor
  · intro chunks hne
    constructor
    · unfold sendStreamingBody bodyStream
      rw [List.map_congr_left (fun c hc => writeChunk_eq_encodeChunk c (hne c hc))]
    · exact decodeChunksGo_bodyStream chunks (bodyStream chunks).length
        (bodyStream_length_bound chunks hne) hne
  · exact bodyStream_filter_empty

theorem chunked_body_stream_roundtrip_witness :
    decodeChunks (bodyStream [[104, 105], [33]]) = some [[104, 105], [33]] ∧
    bodyStream [[104, 105], [33]] =
      [50, 13, 10, 104, 105, 13, 10, 49, 13, 10, 33, 13, 10, 48, 13, 10, 13, 10] := by
  refine ⟨(chunked_body_stream_roundtrip.1 [[104, 105], [33]] (by decide)).2, by decide⟩

/-- C4 counterexample: a produced empty chunk is skipped by
`_write_chunk`, so the stream is NOT the concatenation of a frame per
produced chunk — for the one-chunk sequence `[b""]` the stream is just
the terminator, not `encodeChunk b"" ++ terminator`. -/
theorem chunked_stream_skips_empty_chunk :
    bodyStream [[]] = [48, 13, 10, 13, 10] ∧
    bodyStream [[]] ≠ ([[]].map encodeChunk).flatten ++ [48, 13, 10, 13, 10] := by
  constructor
  · rfl
  · intro h
    have : ([48, 13, 10, 13, 10] : List Nat) =
        [48, 13, 10, 13, 10, 48, 13, 10, 13, 10] := h
    cases this

/-! ### WebSocket engine (src/websocket.py)

State: the `closed` flag and the last-pong timestamp (the reader, writer,
lock and ping task are I/O handles: writes are modelled as the byte list
an operation emits, reads as consumption of an `input` byte list, and
`now` stands for `time.time()`).  `struct.pack(">H"/">Q")` is modelled by
`packBE`, exact below `2^16` / `2^64` (Python raises above, which `send`
can only hit for a payload of at least `2^64` bytes). -/

/-- Mutable per-connection WebSocket state relevant to the claims. -/
structure WSState where
  closed : Bool
  lastPong : Nat
  deriving DecidableEq

/-- `struct.pack`: `k`-byte big-endian encoding of `n`. -/
def packBE : Nat → Nat → List Nat
  | 0, _ => []
  | k + 1, n => packBE k (n / 256) ++ [n % 256]

/-- The frame bytes built by `WebSocket.send` (header ‖ payload): FIN set,
opcode 0x1 for text / 0x2 for binary, and the 1-, 2+2- or 2+8-byte length
encoding. -/
def wsSendFrame (isText : Bool) (payload : List Nat) : List Nat :=
  let opcode := if isText then 1 else 2
  let b0 := 128 ||| opcode
  if payload.length < 126 then b0 :: payload.length :: payload
  else if payload.length < 65536 then b0 :: 126 :: (packBE 2 payload.length ++ payload)
  else b0 :: 127 :: (packBE 8 payload.length ++ payload)

/-- `WebSocket.send`: inert when closed, otherwise writes one frame.
(The `except` path that flips `closed` on a failed socket write is a
property of the transport, not of the frame construction.) -/
def wsSend (st : WSState) (isText : Bool) (payload : List Nat) : WSState × List Nat :=
  if st.closed then (st, [])
  else (st, wsSendFrame isText payload)

/-- `WebSocket.close(code, reason)`: idempotent via the `closed` flag;
otherwise marks closed and writes a close frame `[0x88, len]` with the
code packed big-endian and the reason truncated to 123 bytes.  (Ping-task
cancellation and `_wait_close_frame` only cancel/read and are not part of
the state or the written bytes.) -/
def wsClose (st : WSState) (code : Nat) (reason : List Nat) : WSState × List Nat :=
  if st.closed then (st, [])
  else
    let payload := packBE 2 code ++ (if reason ≠ [] then reason.take 123 else [])
    ({ st with closed := true }, 136 :: payload.length :: payload)

/-- A message surfaced to the caller by `receive`: decoded text (bytes of
the UTF-8 string) or raw binary. -/
inductive WSMsg where
  | text (bs : List Nat)
  | binary (bs : List Nat)
  deriving DecidableEq

/-- `"RSV bits must be 0"`. -/
def rsvReason : List Nat := "RSV bits must be 0".data.map Char.toNat

/-- `"Frame too large"`. -/
def frameTooLargeReason : List Nat := "Frame too large".data.map Char.toNat

/-- `"Client initiated close"`. -/
def clientCloseReason : List Nat := "Client initiated close".data.map Char.toNat

/-- Client-payload unmasking: `payload[i] ^= mask[i % 4]`. -/
def xorMask (mask payload : List Nat) : List Nat :=
  payload.enum.map (fun p => p.2 ^^^ mask.getD (p.1 % 4) 0)

/-- The `while True` read loop of `WebSocket.receive`, fuelled by the
input length (each iteration consumes at least two input bytes).  Result:
(state, bytes written (pong replies / close frames), message or `None`).
A raise inside the `try` is modelled by the `except` path
`await self.close(); return None` with the default `close(1000, "")`. -/
def wsReceiveGo : Nat → WSState → List Nat → Nat → WSState × List Nat × Option WSMsg
  | 0, st, _, _ => (st, [], none)
  | fuel + 1, st, input, now =>
    match input with
    | b1 :: b2 :: rest =>
      if (b1 &&& 112) >>> 4 ≠ 0 then
        let c := wsClose st 1002 rsvReason
        (c.1, c.2, none)
      else
        let opcode := b1 &&& 15
        let masked := b2 &&& 128 ≠ 0
        let len0 := b2 &&& 127
        let ext : Option (Nat × List Nat) :=
          if len0 = 126 then
            match rest with
            | d1 :: d2 :: r => some (256 * d1 + d2, r)
            | _ => none
          else if len0 = 127 then
            if 8 ≤ rest.length then
              some ((rest.take 8).foldl (fun a b => 256 * a + b) 0, rest.drop 8)
            else none
          else some (len0, rest)
        match ext with
        | none =>
          let c := wsClose st 1000 []
          (c.1, c.2, none)
        | some (length, r1) =>
          if length > 65536 then
            let c := wsClose st 1009 frameTooLargeReason
            (c.1, c.2, none)
          else
            let mask := if masked then r1.take 4 else []
            let r2 := if masked then r1.drop 4 else r1
            let payload0 := if length > 0 then r2.take length else []
            let r3 := if length > 0 then r2.drop length else r2
            if masked ∧ payload0 ≠ [] ∧ mask.length < min 4 payload0.length then
              let c := wsClose st 1000 []
              (c.1, c.2, none)
            else
              let payload := if masked ∧ payload0 ≠ [] then xorMask mask payload0 else payload0
              if opcode = 10 then
                wsReceiveGo fuel { st with lastPong := now } r3 now
              else if opcode = 9 then
                if payload.length > 255 then
                  let c := wsClose st 1000 []
                  (c.1, c.2, none)
                else
                  let w := 138 :: payload.length :: payload
                  let rec' := wsReceiveGo fuel st r3 now
                  (rec'.1, w ++ rec'.2.1, rec'.2.2)
              else if opcode = 8 then
                let code := if 2 ≤ payload.length
                  then 256 * payload.headD 0 + payload.getD 1 0 else 1000
                let c := wsClose st code clientCloseReason
                (c.1, c.2, none)
              else if opcode = 1 then (st, [], some (WSMsg.text payload))
              else if opcode = 2 then (st, [], some (WSMsg.binary payload))
              else wsReceiveGo fuel st r3 now
    | _ => (st, [], none)

/-- `WebSocket.receive`: `None` immediately when closed, else the read
loop. -/
def wsReceive (st : WSState) (input : List Nat) (now : Nat) :
    WSState × List Nat × Option WSMsg :=
  if st.closed then (st, [], none)
  else wsReceiveGo input.length st input now

/-- C10: a closed WebSocket is inert — `send` returns without writing any
bytes, `receive` returns `None` without reading or writing, and `close`
leaves the state unchanged and sends no close frame (idempotent). -/
theorem websocket_closed_inert (st : WSState) (h : st.closed = true)
    (isText : Bool) (payload input reason : List Nat) (now code : Nat) :
    wsSend st isText payload = (st, []) ∧
    wsReceive st input now = (st, [], none) ∧
    wsClose st code reason = (st, []) := by
  refine ⟨?_, ?_, ?_⟩ <;> simp [wsSend, wsReceive, wsClose, h]

theorem websocket_closed_inert_witness :
    wsSend ⟨true, 7⟩ true [104, 105] = (⟨true, 7⟩, []) ∧
    wsReceive ⟨true, 7⟩ [129, 0] 3 = (⟨true, 7⟩, [], none) ∧
    wsClose ⟨true, 7⟩ 1000 [] = (⟨true, 7⟩, []) :=
  websocket_closed_inert ⟨true, 7⟩ rfl true [104, 105] [129, 0] [] 3 1000

theorem and128_eq_zero (n : Nat) (h : n < 128) : n &&& 128 = 0 := by
  rw [show (128 : Nat) = 2 ^ 7 from rfl, Nat.and_two_pow,
    Nat.testBit_eq_false_of_lt (by omega)]
  rfl

theorem packBE_two (n : Nat) (h : n < 65536) : packBE 2 n = [n / 256, n % 256] := by
  rw [show packBE 2 n = [n / 256 % 256, n % 256] from rfl,
    Nat.mod_eq_of_lt (by omega : n / 256 < 256)]

theorem packBE_eight (n : Nat) :
    packBE 8 n = [n / 2 ^ 56 % 256, n / 2 ^ 48 % 256, n / 2 ^ 40 % 256,
      n / 2 ^ 32 % 256, n / 2 ^ 24 % 256, n / 2 ^ 16 % 256, n / 2 ^ 8 % 256,
      n % 256] := by
  simp [packBE, Nat.div_div_eq_div_mul]

/-- C5: an open-connection `send` writes a single unfragmented frame:
first byte `0x80 ||| opcode` with opcode 0x1 for text and 0x2 for binary;
the length field is the single byte `len` when `len < 126`, the byte 126
followed by the 2-byte big-endian length when `len < 65536`, and the byte
127 followed by the 8-byte big-endian length otherwise (within
`struct.pack(">Q")`'s domain); and the mask bit (high bit of the second
byte) is never set on server-to-client frames. -/
theorem websocket_send_framing (st : WSState) (isText : Bool) (payload : List Nat)
    (hopen : st.closed = false) :
    ((wsSend st isText payload).2.head? =
        some (128 ||| (if isText then 1 else 2))) ∧
    (payload.length < 126 →
      (wsSend st isText payload).2 =
        (128 ||| (if isText then 1 else 2)) :: payload.length :: payload) ∧
    (126 ≤ payload.length → payload.length < 65536 →
      (wsSend st isText payload).2 =
        (128 ||| (if isText then 1 else 2)) :: 126 ::
          payload.length / 256 :: payload.length % 256 :: payload) ∧
    (65536 ≤ payload.length → payload.length < 2 ^ 64 →
      (wsSend st isText payload).2 =
        (128 ||| (if isText then 1 else 2)) :: 127 ::
          payload.length / 2 ^ 56 % 256 :: payload.length / 2 ^ 48 % 256 ::
          payload.length / 2 ^ 40 % 256 :: payload.length / 2 ^ 32 % 256 ::
          payload.length / 2 ^ 24 % 256 :: payload.length / 2 ^ 16 % 256 ::
          payload.length / 2 ^ 8 % 256 :: payload.length % 256 :: payload) ∧
    (∀ b2, (wsSend st isText payload).2.get? 1 = some b2 → b2 &&& 128 = 0) := by
  have hw : (wsSend st isText payload).2 = wsSendFrame isText payload := by
    simp [wsSend, hopen]
  by_cases h1 : payload.length < 126
  · have hf : wsSendFrame isText payload =
        (128 ||| (if isText then 1 else 2)) :: payload.length :: payload := by
      unfold wsSendFrame
      dsimp only
      rw [if_pos h1]
    refine ⟨?_, fun _ => by rw [hw, hf], fun h _ => absurd h (by omega),
      fun h _ => absurd h (by omega), ?_⟩
    · rw [hw, hf]
      rfl
    · intro b2 hb2
      rw [hw, hf] at hb2
      simp only [List.get?] at hb2
      cases hb2
      exact and128_eq_zero _ (by omega)
  · by_cases h2 : payload.length < 65536
    · have hf : wsSendFrame isText payload =
          (128 ||| (if isText then 1 else 2)) :: 126 ::
            payload.length / 256 :: payload.length % 256 :: payload := by
        unfold wsSendFrame
        dsimp only
        rw [if_neg h1, if_pos h2, packBE_two payload.length h2]
        rfl
      refine ⟨?_, fun h => absurd h h1, fun _ _ => by rw [hw, hf],
        fun h _ => absurd h (by omega), ?_⟩
      · rw [hw, hf]
        rfl
      · intro b2 hb2
        rw [hw, hf] at hb2
        simp only [List.get?] at hb2
        cases hb2
        exact and128_eq_zero 126 (by omega)
    · have hf : wsSendFrame isText payload =
          (128 ||| (if isText then 1 else 2)) :: 127 ::
            payload.length / 2 ^ 56 % 256 :: payload.length / 2 ^ 48 % 256 ::
            payload.length / 2 ^ 40 % 256 :: payload.length / 2 ^ 32 % 256 ::
            payload.length / 2 ^ 24 % 256 :: payload.length / 2 ^ 16 % 256 ::
            payload.length / 2 ^ 8 % 256 :: payload.length % 256 :: payload := by
        unfold wsSendFrame
        dsimp only
        rw [if_neg h1, if_neg h2, packBE_eight payload.length]
        rfl
      refine ⟨?_, fun h => absurd h h1, fun _ h => absurd h h2,
        fun _ _ => by rw [hw, hf], ?_⟩
      · rw [hw, hf]
        rfl
      · intro b2 hb2
        rw [hw, hf] at hb2
        simp only [List.get?] at hb2
        cases hb2
        exact and128_eq_zero 127 (by omega)

theorem websocket_send_framing_witness :
    (wsSend ⟨false, 0⟩ true [104, 105]).2 = [129, 2, 104, 105] ∧
    (wsSend ⟨false, 0⟩ false (List.replicate 300 7)).2 =
      130 :: 126 :: 1 :: 44 :: List.replicate 300 7 := by
  constructor
  · have h := (websocket_send_framing ⟨false, 0⟩ true [104, 105] rfl).2.1
      (by decide)
    rw [h]
    rfl
  · have h := (websocket_send_framing ⟨false, 0⟩ false (List.replicate 300 7)
      rfl).2.2.1 (by rw [List.length_replicate]; omega)
      (by rw [List.length_replicate]; omega)
    rw [h, List.length_replicate]
    norm_num
    decide

/-! ### Router (src/routing.py)

Paths and methods are `List Char`; handlers are an abstract type `H`
(Python handlers are function objects, always truthy, so `if handler:`
is `Option.isSome`).  The `_parts` helper, the static trie
(`{"h", "c"}` nodes), the per-method capture tries
(`{"h", "c", "p", "pn"}` nodes) and the bounded not-found cache are
embedded as below; `set.pop()`'s arbitrary eviction is modelled as
removing the head of the cache list. -/

/-- `_StaticTrie._parts` / `_RouteTrie._parts` (identical code): strip
one leading and one trailing `/`, split on `/`, empty for `""`/`"/"`. -/
def pyParts (p : List Char) : List (List Char) :=
  if p = [] ∨ p = ['/'] then []
  else
    let p1 := if p.head? = some '/' then p.tail else p
    let p2 := if p1.getLast? = some '/' then p1.dropLast else p1
    if p2 = [] then [] else splitOnChar '/' p2

/-- A `_StaticTrie` node `{"h": handler, "c": children}`. -/
inductive SNode (H : Type) where
  | node (h : Option H) (children : List (List Char × SNode H))

/-- A fresh static-trie node. -/
def emptySNode {H : Type} : SNode H := .node none []

/-- `_StaticTrie.add` walking a segment list. -/
def snodeAdd {H : Type} : SNode H → List (List Char) → H → SNode H
  | .node _ c, [], handler => .node (some handler) c
  | .node h c, part :: rest, handler =>
    let child := (dictGet c part).getD emptySNode
    .node h (dictInsert c part (snodeAdd child rest handler))

/-- `_StaticTrie.match`'s walk: longest prefix with a truthy handler;
the root handler is never consulted (`last_handler` starts as `None`). -/
def snodeMatch {H : Type} : SNode H → List (List Char) → Option H → Option H
  | _, [], last => last
  | .node _ c, part :: rest, last =>
    match dictGet c part with
    | none => last
    | some child =>
      match child with
      | .node (some hh) _ => snodeMatch child rest (some hh)
      | .node none _ => snodeMatch child rest last

/-- `_StaticTrie.match`. -/
def staticTrieMatch {H : Type} (root : SNode H) (path : List Char) : Option H :=
  snodeMatch root (pyParts path) none

/-- A `_RouteTrie` node `{"h", "c", "p", "pn"}`. -/
inductive DNode (H : Type) where
  | node (h : Option H) (children : List (List Char × DNode H))
      (p : Option (DNode H)) (pn : Option (List Char))

/-- A fresh capture-trie node. -/
def emptyDNode {H : Type} : DNode H := .node none [] none none

/-- `part.startswith("<") and part.endswith(">")`. -/
def isParamSeg (part : List Char) : Bool :=
  decide (part.head? = some '<' ∧ part.getLast? = some '>')

/-- `part[1:-1]`. -/
def paramName (part : List Char) : List Char := (part.drop 1).dropLast

/-- `_RouteTrie.add`: note that inserting a capture segment overwrites
the node's `pn` unconditionally. -/
def dnodeAdd {H : Type} : DNode H → List (List Char) → H → DNode H
  | .node _ c p pn, [], handler => .node (some handler) c p pn
  | .node h c p pn, part :: rest, handler =>
    if isParamSeg part then
      let child := p.getD emptyDNode
      .node h c (some (dnodeAdd child rest handler)) (some (paramName part))
    else
      let child := (dictGet c part).getD emptyDNode
      .node h (dictInsert c part (dnodeAdd child rest handler)) p pn

/-- `_RouteTrie.match`: literal children first, capture child as
fallback, parameter recorded under the node's `pn`. -/
def dnodeMatch {H : Type} : DNode H → List (List Char) →
    List (List Char × List Char) → Option (H × List (List Char × List Char))
  | .node h _ _ _, [], params =>
    match h with
    | some hh => some (hh, params)
    | none => none
  | .node _ c p pn, part :: rest, params =>
    match dictGet c part with
    | some child => dnodeMatch child rest params
    | none =>
      match p with
      | some child =>
        let params' :=
          match pn with
          | some name => dictInsert params name part
          | none => params
        dnodeMatch child rest params'
      | none => none

/-- The `Router`'s mutable state. -/
structure Router (H : Type) where
  route_map : List ((List Char × List Char) × H)
  static_routes : List (List Char × H)
  staticTrie : SNode H
  dynTries : List (List Char × DNode H)
  notFoundCache : List (List Char)
  cacheSize : Nat

/-- `Router.__init__(not_found_cache_size=50)`. -/
def emptyRouter (H : Type) (size : Nat) : Router H :=
  ⟨[], [], emptySNode, [], [], size⟩

/-- `Router.add`: capture patterns go to the method's capture trie,
everything else to the exact map.  The not-found cache is NOT touched. -/
def routerAdd {H : Type} (r : Router H) (method path : List Char) (handler : H) :
    Router H :=
  if '<' ∈ path ∧ '>' ∈ path then
    let trie := (dictGet r.dynTries method).getD emptyDNode
    { r with dynTries :=
        dictInsert r.dynTries method (dnodeAdd trie (pyParts path) handler) }
  else
    { r with route_map := dictInsert r.route_map (method, path) handler }

/-- `Router.add_static`. -/
def routerAddStatic {H : Type} (r : Router H) (urlPath : List Char) (handler : H) :
    Router H :=
  { r with static_routes := r.static_routes ++ [(urlPath, handler)],
           staticTrie := snodeAdd r.staticTrie (pyParts urlPath) handler }

/-- `Router._internal_match`: exact map, then static trie, then the
method's capture trie. -/
def internalMatch {H : Type} (r : Router H) (method path : List Char) :
    Option (H × List (List Char × List Char)) :=
  match dictGet r.route_map (method, path) with
  | some h => some (h, [])
  | none =>
    match staticTrieMatch r.staticTrie path with
    | some h => some (h, [])
    | none =>
      match dictGet r.dynTries method with
      | some trie => dnodeMatch trie (pyParts path) []
      | none => none

/-- `Router.match`: the not-found cache is checked FIRST; a miss is
admitted to the cache, evicting one arbitrary entry (modelled: the head)
when full.  Returns the `(handler, params)` outcome and the router state
after the call (`None, None` is `none`). -/
def routerMatch {H : Type} (r : Router H) (method path : List Char) :
    Option (H × List (List Char × List Char)) × Router H :=
  if path ∈ r.notFoundCache then (none, r)
  else
    match internalMatch r method path with
    | some res => (some res, r)
    | none =>
      let cache1 := if r.cacheSize ≤ r.notFoundCache.length
        then r.notFoundCache.tail
        else r.notFoundCache
      (none, { r with notFoundCache := cache1 ++ [path] })

/-- C1 (amended): `Router.match` consults the bounded not-found cache
BEFORE the exact map, and `Router.add` never invalidates the cache; so a
route registered for `(method, p)` after `p` was admitted to the cache
resolves only once `p` is no longer cached: for every router state in
which `p` is not in the not-found cache, registering an exact route for
`(method, p)` makes `match` resolve it (with empty params). -/
theorem router_match_after_add {H : Type} (r : Router H) (m p : List Char) (h : H)
    (hcache : p ∉ r.notFoundCache) (hexact : ¬('<' ∈ p ∧ '>' ∈ p)) :
    (routerMatch (routerAdd r m p h) m p).1 = some (h, []) ∧
    (routerAdd r m p h).notFoundCache = r.notFoundCache := by
  have hadd : routerAdd r m p h =
      { r with route_map := dictInsert r.route_map (m, p) h } := by
    unfold routerAdd
    rw [if_neg hexact]
  constructor
  · rw [hadd]
    unfold routerMatch
    dsimp only
    rw [if_neg hcache]
    unfold internalMatch
    dsimp only
    rw [dictGet_insert]
  · rw [hadd]

theorem router_match_after_add_witness :
    (routerMatch (routerAdd (emptyRouter Nat 50) ['G', 'E', 'T'] ['/', 'x'] 7)
      ['G', 'E', 'T'] ['/', 'x']).1 = some (7, []) :=
  (router_match_after_add (emptyRouter Nat 50) ['G', 'E', 'T'] ['/', 'x'] 7
    (by decide) (by decide)).1

/-- C1 counterexample: a fresh router misses `GET /x` (admitting `/x` to
the not-found cache); an exact route for `(GET, /x)` is then registered
(visible in `route_map`), yet `match` still reports no match — the cached
miss denies the registered route, so `match` does NOT consult the exact
map before the cache. -/
theorem router_cached_miss_denies_registered_route :
    dictGet (routerAdd ((routerMatch (emptyRouter Nat 50)
        ['G', 'E', 'T'] ['/', 'x']).2) ['G', 'E', 'T'] ['/', 'x'] 7).route_map
      (['G', 'E', 'T'], ['/', 'x']) = some 7 ∧
    (routerMatch (routerAdd ((routerMatch (emptyRouter Nat 50)
        ['G', 'E', 'T'] ['/', 'x']).2) ['G', 'E', 'T'] ['/', 'x'] 7)
      ['G', 'E', 'T'] ['/', 'x']).1 = none ∧
    (none : Option (Nat × List (List Char × List Char))) ≠ some (7, []) := by decide

/-- C9: the not-found cache is keyed on the path alone, ignoring the
method: any miss admits the path to the cache, and while the path is
cached every `match` on it — for ANY method, even one with a registered
exact route — short-circuits to no-match without touching the route
tables or the state. -/
theorem router_not_found_cache_ignores_method {H : Type} (r : Router H)
    (m m' p : List Char) (h : H) :
    ((routerMatch r m p).1 = none → p ∈ (routerMatch r m p).2.notFoundCache) ∧
    (p ∈ r.notFoundCache → dictGet r.route_map (m', p) = some h →
      (routerMatch r m' p).1 = none ∧ (routerMatch r m' p).2 = r) := by
  constructor
  · intro hmiss
    unfold routerMatch at hmiss ⊢
    by_cases hc : p ∈ r.notFoundCache
    · rw [if_pos hc]
      exact hc
    · rw [if_neg hc] at hmiss ⊢
      cases him : internalMatch r m p with
      | some res =>
        rw [him] at hmiss
        cases hmiss
      | none =>
        dsimp only
        exact List.mem_append_right _ (List.mem_singleton.mpr rfl)
  · intro hc _
    unfold routerMatch
    rw [if_pos hc]
    exact ⟨rfl, rfl⟩

theorem router_not_found_cache_ignores_method_witness :
    (['/', 'x'] ∈ (routerMatch (emptyRouter Nat 50)
      ['G', 'E', 'T'] ['/', 'x']).2.notFoundCache) ∧
    ((routerMatch (⟨[((['P', 'U', 'T'], ['/', 'x']), 7)], [], emptySNode, [],
        [['/', 'x']], 50⟩ : Router Nat) ['P', 'U', 'T'] ['/', 'x']).1 = none) := by
  constructor
  · exact (router_not_found_cache_ignores_method (emptyRouter Nat 50)
      ['G', 'E', 'T'] ['G', 'E', 'T'] ['/', 'x'] 0).1 (by decide)
  · exact ((router_not_found_cache_ignores_method
      (⟨[((['P', 'U', 'T'], ['/', 'x']), 7)], [], emptySNode, [],
        [['/', 'x']], 50⟩ : Router Nat)
      ['G', 'E', 'T'] ['P', 'U', 'T'] ['/', 'x'] 7).2 (by decide) (by decide)).1

end MicroSpec
